import Mathlib

/-!
# Verification of the aider-ce coder domain layer

Shallow embedding, in Lean 4, of the orchestration core under
`src/aider/coders/domain/`:

* `file_manager.py` — the in-chat file registry (`FileManager`),
* `editor.py` — edit authorization and commit coordination (`EditorManager`),
* `runtime.py` — background summarization and context compaction
  (`RuntimeManager`),
* `response_parser.py` — recovery parsing of truncated JSON argument
  buffers (`ResponseParser.parse_partial_args`),
* `tool_use.py` — tool-call expansion, routing and execution
  (`ToolUseManager`).

External collaborators (the VCS, the confirmation/output surface, the
model client, tool servers and the file system) are modelled as oracle
fields of explicit environment structures; effects on shared session
state are modelled as explicit state passing.  Python sets are modelled
as duplicate-free lists with insert-if-absent, Python dicts as
insertion-ordered association lists, and raised exceptions as `Except`
values of the corresponding oracles.
-/

/-- A chat message: a role / content pair (`{"role": ..., "content": ...}`
dictionaries in the Python code). -/
structure Message where
  role : String
  content : String
deriving DecidableEq, Repr

/-- Insert-if-absent, the effect of `set.add` on a Python set modelled as a
duplicate-free list. -/
def addSet (l : List String) (x : String) : List String :=
  if x ∈ l then l else l ++ [x]

/-! ## FileManager (`file_manager.py`) -/

/-- Oracles used by `FileManager.check_added_files`: per-file image test
(`utils.is_image_file`) and the composed token count
(`main_model.token_count(io.read_text(fname))`). -/
structure FMEnv where
  isImage : String → Bool
  tokenCount : String → Nat
  absRoot : String → String

/-- The `FileManager` state relevant to `check_added_files` and
`add_rel_fname`: the in-chat set `abs_fnames` and the `warning_given`
flag. -/
structure FMState where
  absFnames : List String
  warningGiven : Bool
deriving DecidableEq, Repr

/-- The token sum computed by `check_added_files`: the token count of every
non-image file currently in chat. -/
def chatTokens (env : FMEnv) (st : FMState) : Nat :=
  st.absFnames.foldl (fun acc f => if env.isImage f then acc else acc + env.tokenCount f) 0

/-- `FileManager.check_added_files` (file_manager.py:217-243).  Returns the
new state together with `true` when the "too many files" warning was
emitted by this call. -/
def check_added_files (env : FMEnv) (st : FMState) : FMState × Bool :=
  if st.warningGiven then (st, false)
  else if st.absFnames.length < 4 then (st, false)
  else if chatTokens env st < 20 * 1024 then (st, false)
  else ({ st with warningGiven := true }, true)

/-- `FileManager.add_rel_fname` (file_manager.py:20-23): add the normalized
path to `abs_fnames`, then run `check_added_files`.  The second component
records whether this call emitted the warning. -/
def add_rel_fname (env : FMEnv) (st : FMState) (relFname : String) : FMState × Bool :=
  check_added_files env { st with absFnames := addSet st.absFnames (env.absRoot relFname) }

/-- Run a sequence of `add_rel_fname` calls, counting how many of them
emitted the warning. -/
def run_adds (env : FMEnv) (st : FMState) (fs : List String) : FMState × Nat :=
  fs.foldl (fun (acc : FMState × Nat) f =>
    let r := add_rel_fname env acc.1 f
    (r.1, acc.2 + (if r.2 then 1 else 0))) (st, 0)

/-! ## RuntimeManager (`runtime.py`) -/

/-- Oracles used by the summarization / compaction state machine.
`tokenCount`, `summarizerMaxTokens` and `compactionMaxTokens` model the
summarizer's `check_max_tokens` inputs; `summarize` models
`summarizer.summarize` (`.error` = the `ValueError` branch);
`summarizeAllAsText` models `summarizer.summarize_all_as_text`
(`.error` = a raised exception). -/
structure RuntimeEnv where
  tokenCount : List Message → Nat
  summarizerMaxTokens : Nat
  compactionMaxTokens : Nat
  enableCompaction : Bool
  summarize : List Message → Except String (List Message)
  summarizeAllAsText : List Message → Except String String

/-- The `RuntimeManager` state relevant to summarization and compaction:
the coder's `done_messages`, whether a summarizer thread exists
(`summarizer_thread is not None`), the worker's snapshot
(`summarizing_messages`), its result (`summarized_done_messages`) and the
warnings emitted so far. -/
structure RuntimeState where
  doneMessages : List Message
  threadActive : Bool
  summarizingMessages : Option (List Message)
  summarizedDoneMessages : List Message
  warnings : List String
deriving DecidableEq, Repr

/-- Modelled from the spec: `summarizer.check_max_tokens` (aider's history
summarizer, not under src/) — true when the token count of the messages
exceeds the given threshold. -/
def check_max_tokens (tokenCount : List Message → Nat) (msgs : List Message)
    (maxTokens : Nat) : Bool :=
  decide (maxTokens < tokenCount msgs)

/-- `RuntimeManager.summarize_worker` (runtime.py:79-91): snapshot the live
done list, summarize it; on `ValueError` warn and fall back to the
snapshot itself. -/
def summarize_worker (env : RuntimeEnv) (st : RuntimeState) : RuntimeState :=
  let snap := st.doneMessages
  match env.summarize snap with
  | .ok r => { st with summarizingMessages := some snap, summarizedDoneMessages := r }
  | .error e =>
      { st with summarizingMessages := some snap, summarizedDoneMessages := snap,
                warnings := st.warnings ++ [e] }

/-- `RuntimeManager.summarize_end` (runtime.py:93-104): join the worker; if
the live done list still equals the worker's snapshot, swap in the
summarized replacement, otherwise leave the live list untouched. -/
def summarize_end (st : RuntimeState) : RuntimeState :=
  if !st.threadActive then st
  else
    let done :=
      if st.summarizingMessages = some st.doneMessages then st.summarizedDoneMessages
      else st.doneMessages
    { doneMessages := done, threadActive := false, summarizingMessages := none,
      summarizedDoneMessages := [], warnings := st.warnings }

/-- `RuntimeManager.summarize_start` (runtime.py:66-77): if the summarizer's
own threshold is exceeded, join any previous worker and start a new
background worker thread. -/
def summarize_start (env : RuntimeEnv) (st : RuntimeState) : RuntimeState :=
  if !check_max_tokens env.tokenCount st.doneMessages env.summarizerMaxTokens then st
  else
    let st1 := summarize_end st
    { st1 with threadActive := true }

/-- The synthetic assistant acknowledgment installed by compaction. -/
def compactionAck : String :=
  "Ok, I will use this summary as the context for our conversation going forward."

/-- `RuntimeManager.compact_context_if_needed` (runtime.py:106-146).
With compaction disabled, defer to background summarization.  Otherwise,
below the compaction threshold do nothing; above it, summarize the whole
done history to text and replace it with the two-message summary pair; on
a raised exception or an empty summary, warn twice and fall back to
`summarize_start`. -/
def compact_context_if_needed (env : RuntimeEnv) (st : RuntimeState) : RuntimeState :=
  if !env.enableCompaction then summarize_start env st
  else if !check_max_tokens env.tokenCount st.doneMessages env.compactionMaxTokens then st
  else
    match env.summarizeAllAsText st.doneMessages with
    | .error e =>
        summarize_start env
          { st with warnings := st.warnings ++
              ["Context compaction failed: " ++ e, "Proceeding with full history for now."] }
    | .ok text =>
        if text = "" then
          summarize_start env
            { st with warnings := st.warnings ++
                ["Context compaction failed: Summarization returned an empty result.",
                 "Proceeding with full history for now."] }
        else
          { st with doneMessages :=
              [{ role := "user", content := text },
               { role := "assistant", content := compactionAck }] }

/-! ## EditorManager (`editor.py`) -/

/-- Oracles used by `EditorManager`: path normalization (`abs_root_path`),
repository presence and queries, configuration flags, the confirmation
surface (per-path answers to the two prompts) and `utils.touch_file`
success. -/
structure EditorEnv where
  fm : FMEnv
  repoPresent : Bool
  pathInRepo : String → Bool
  gitIgnored : String → Bool
  dryRun : Bool
  dirtyCommits : Bool
  isDirty : String → Bool
  confirmCreate : String → Bool
  confirmEdit : String → Bool
  touchOk : String → Bool
  autoCommits : Bool

/-- Session state mutated by `EditorManager`: the `FileManager` state, the
set of paths existing on disk, the staged (`git add`-ed) paths, the files
created by `touch_file`, the `need_commit_before_edits` set, and the list
of commits performed via `repo.commit` (each recorded as the path set it
covered). -/
structure EditorState where
  fm : FMState
  disk : List String
  staged : List String
  created : List String
  needCommit : List String
  commits : List (List String)
deriving DecidableEq, Repr

/-- `abs_fnames.add` followed by `check_added_files`, as done inside
`allowed_to_edit` (the warning outcome is dropped there). -/
def fmAddFname (env : EditorEnv) (st : EditorState) (fullPath : String) : EditorState :=
  { st with fm := (check_added_files env.fm
      { st.fm with absFnames := addSet st.fm.absFnames fullPath }).1 }

/-- `EditorManager.check_for_dirty_commit` (editor.py:66-81): when a repo is
present, dirty commits are enabled and the path is dirty, record the path
in `need_commit_before_edits`. -/
def check_for_dirty_commit (env : EditorEnv) (st : EditorState) (path : String) : EditorState :=
  if !env.repoPresent then st
  else if !env.dirtyCommits then st
  else if !env.isDirty path then st
  else { st with needCommit := addSet st.needCommit path }

/-- `EditorManager.allowed_to_edit` (editor.py:14-64).  Returns the
authorization outcome (`true` = authorized; Python's `None` returns are
`false`) and the updated state. -/
def allowed_to_edit (env : EditorEnv) (st : EditorState) (path : String) :
    Bool × EditorState :=
  let fullPath := env.fm.absRoot path
  let needToAdd := env.repoPresent && !env.pathInRepo path
  if fullPath ∈ st.fm.absFnames then
    (true, check_for_dirty_commit env st path)
  else if env.repoPresent && env.gitIgnored path then
    (false, st)
  else if fullPath ∉ st.disk then
    if !env.confirmCreate path then (false, st)
    else if !env.dryRun then
      if !env.touchOk path then (false, st)
      else
        let st1 := { st with disk := addSet st.disk fullPath,
                             created := st.created ++ [fullPath] }
        let st2 := if needToAdd then { st1 with staged := addSet st1.staged fullPath } else st1
        (true, fmAddFname env st2 fullPath)
    else
      (true, fmAddFname env st fullPath)
  else if !env.confirmEdit path then (false, st)
  else
    let st1 := if needToAdd then { st with staged := addSet st.staged fullPath } else st
    let st2 := fmAddFname env st1 fullPath
    (true, check_for_dirty_commit env st2 path)

/-- A proposed edit: an optional target path (an edit with no path is kept
unconditionally) and an opaque payload distinguishing edits. -/
structure Edit where
  path : Option String
  payload : Nat
deriving DecidableEq, Repr

/-- First-match lookup in the `seen` memoization dictionary. -/
def lookupSeen (seen : List (String × Bool)) (p : String) : Option Bool :=
  (seen.find? (fun e => decide (e.1 = p))).map (fun e => e.2)

/-- The keep-or-drop decision for one edit, read from a memoization
dictionary: pathless edits are kept, others exactly when their path's
memoized decision is `true`. -/
def keepPred (seen : List (String × Bool)) (e : Edit) : Bool :=
  match e.path with
  | none => true
  | some p => (lookupSeen seen p).getD false

/-- Instrumented output of `prepare_to_edit`: the returned edits, the final
state, the final memoization dictionary, the log of paths for which
`allowed_to_edit` was actually invoked, and the pre-edit-commit set as it
stood when `dirty_commit` ran. -/
structure PrepResult where
  res : List Edit
  st : EditorState
  seen : List (String × Bool)
  log : List String
  flagged : List String
deriving Repr

/-- The loop body of `EditorManager.prepare_to_edit` (editor.py:90-104). -/
def prepare_loop (env : EditorEnv) :
    List Edit → EditorState → List (String × Bool) → List Edit → List String →
    EditorState × List (String × Bool) × List Edit × List String
  | [], st, seen, res, log => (st, seen, res, log)
  | e :: rest, st, seen, res, log =>
    match e.path with
    | none => prepare_loop env rest st seen (res ++ [e]) log
    | some p =>
      match lookupSeen seen p with
      | some b => prepare_loop env rest st seen (if b then res ++ [e] else res) log
      | none =>
        let r := allowed_to_edit env st p
        prepare_loop env rest r.2 (seen ++ [(p, r.1)])
          (if r.1 then res ++ [e] else res) (log ++ [p])

/-- `EditorManager.dirty_commit` (editor.py:111-124): one commit covering
exactly the pending set, when it is non-empty, dirty commits are enabled
and a repository exists. -/
def dirty_commit (env : EditorEnv) (st : EditorState) : EditorState :=
  if st.needCommit = [] then st
  else if !env.dirtyCommits then st
  else if !env.repoPresent then st
  else { st with commits := st.commits ++ [st.needCommit] }

/-- `EditorManager.prepare_to_edit` (editor.py:83-109): clear the pending
set, authorize each edit's path (memoized per distinct path), commit the
pending set, clear it again, and return the filtered edits. -/
def prepare_to_edit (env : EditorEnv) (st : EditorState) (edits : List Edit) : PrepResult :=
  let st0 := { st with needCommit := [] }
  let r := prepare_loop env edits st0 [] [] []
  let st1 := dirty_commit env r.1
  { res := r.2.2.1, st := { st1 with needCommit := [] }, seen := r.2.1,
    log := r.2.2.2, flagged := r.1.needCommit }

/-- `EditorManager.get_context_from_history` (editor.py:126-134). -/
def get_context_from_history (history : List Message) : String :=
  history.foldl (fun ctx m => ctx ++ "\n" ++ m.role.toUpper ++ ": " ++ m.content ++ "\n") ""

/-- Modelled from the spec: `gpt_prompts.files_content_gpt_edits` (the prompt
repository, not under src/) — the "files edited" notice formatted with the
commit hash and message. -/
def files_content_gpt_edits (hash msg : String) : String :=
  "Files edited, committed " ++ hash ++ ": " ++ msg

/-- Modelled from the spec: `gpt_prompts.files_content_gpt_no_edits` (the
prompt repository, not under src/) — the distinct "no edits" notice. -/
def files_content_gpt_no_edits : String :=
  "No edits were made."

/-- Output of `auto_commit`: the returned notice (`none` = Python returned
`None`), whether `repo.commit` was attempted, and the errors reported. -/
structure AutoCommitOut where
  result : Option String
  attempted : Bool
  errors : List String
deriving DecidableEq, Repr

/-- The VCS commit oracle for `auto_commit`: given the edited paths and the
context, either raise (`.error`), report nothing to commit (`.ok none`)
or return the `(hash, message)` pair (`.ok (some ...)`). -/
def AutoCommitOracle : Type := List String → String → Except String (Option (String × String))

/-- The commit-message context used by `auto_commit`: the caller-supplied
context unless it is falsy (absent or empty), in which case it is built
from the current messages (editor.py:141-142). -/
def autoCommitContext (contextArg : Option String) (curMessages : List Message) : String :=
  match contextArg with
  | none => get_context_from_history curMessages
  | some c => if c = "" then get_context_from_history curMessages else c

/-- `EditorManager.auto_commit` (editor.py:136-159).  No-op without a repo,
with auto-commits disabled or in dry-run; otherwise commit and translate
the outcome into the corresponding notice, reporting VCS errors and
returning nothing on failure. -/
def auto_commit (env : EditorEnv) (commit : AutoCommitOracle) (edited : List String)
    (contextArg : Option String) (curMessages : List Message) : AutoCommitOut :=
  if !env.repoPresent || !env.autoCommits || env.dryRun then
    { result := none, attempted := false, errors := [] }
  else
    match commit edited (autoCommitContext contextArg curMessages) with
    | .error err => { result := none, attempted := true, errors := ["Unable to commit: " ++ err] }
    | .ok none => { result := some files_content_gpt_no_edits, attempted := true, errors := [] }
    | .ok (some (h, m)) =>
        { result := some (files_content_gpt_edits h m), attempted := true, errors := [] }

/-! ## JSON (model of Python's `json.loads`)

A strict recursive-descent parser over `List Char`, with a fuel argument
for termination.  It models CPython's `json.loads`: leading/trailing
whitespace is allowed, trailing non-whitespace data is an error
("Extra data"), unescaped control characters in strings are rejected,
and numbers follow the JSON grammar (no leading zeros).  Number values
are kept as their lexemes and `\u` escapes are decoded to a placeholder
character: the claims only depend on parse success and on string/array/
object structure, never on those values. -/

/-- JSON values. -/
inductive Json where
  | jnull
  | jbool (b : Bool)
  | jnum (raw : String)
  | jstr (s : String)
  | jarr (items : List Json)
  | jobj (fields : List (String × Json))

/-- The whitespace characters accepted between JSON tokens by `json.loads`. -/
def jsonWs (c : Char) : Bool :=
  c == ' ' || c == '\t' || c == '\n' || c == '\r'

/-- Skip inter-token whitespace. -/
def skipWs (l : List Char) : List Char := l.dropWhile jsonWs

/-- Hexadecimal digit test for `\u` escapes. -/
def isHexDigit (c : Char) : Bool :=
  c.isDigit || ('a' ≤ c && c ≤ 'f') || ('A' ≤ c && c ≤ 'F')

/-- Parse a JSON string body (the opening quote already consumed),
accumulating decoded characters in reverse. -/
def parseStringBody (fuel : Nat) (l : List Char) (acc : List Char) :
    Option (String × List Char) :=
  match fuel with
  | 0 => none
  | fuel + 1 =>
    match l with
    | [] => none
    | c :: rest =>
      if c = '"' then some (String.mk acc.reverse, rest)
      else if c = '\\' then
        match rest with
        | [] => none
        | e :: rest2 =>
          if e = '"' then parseStringBody fuel rest2 ('"' :: acc)
          else if e = '\\' then parseStringBody fuel rest2 ('\\' :: acc)
          else if e = '/' then parseStringBody fuel rest2 ('/' :: acc)
          else if e = 'b' then parseStringBody fuel rest2 ('\x08' :: acc)
          else if e = 'f' then parseStringBody fuel rest2 ('\x0c' :: acc)
          else if e = 'n' then parseStringBody fuel rest2 ('\n' :: acc)
          else if e = 'r' then parseStringBody fuel rest2 ('\r' :: acc)
          else if e = 't' then parseStringBody fuel rest2 ('\t' :: acc)
          else if e = 'u' then
            match rest2 with
            | h1 :: h2 :: h3 :: h4 :: rest3 =>
              if isHexDigit h1 && isHexDigit h2 && isHexDigit h3 && isHexDigit h4 then
                parseStringBody fuel rest3 ('�' :: acc)
              else none
            | _ => none
          else none
      else if c.val < 32 then none
      else parseStringBody fuel rest (c :: acc)

/-- Parse the optional fraction part of a number, returning its lexeme. -/
def parseFrac (l : List Char) : Option (List Char × List Char) :=
  match l with
  | '.' :: rest =>
    let ds := rest.takeWhile Char.isDigit
    if ds.isEmpty then none else some ('.' :: ds, rest.dropWhile Char.isDigit)
  | _ => some ([], l)

/-- Parse the optional exponent part of a number, returning its lexeme. -/
def parseExp (l : List Char) : Option (List Char × List Char) :=
  match l with
  | c :: rest =>
    if c = 'e' || c = 'E' then
      let sr : List Char × List Char :=
        match rest with
        | '+' :: r2 => (['+'], r2)
        | '-' :: r2 => (['-'], r2)
        | _ => ([], rest)
      let ds := sr.2.takeWhile Char.isDigit
      if ds.isEmpty then none
      else some (c :: (sr.1 ++ ds), sr.2.dropWhile Char.isDigit)
    else some ([], l)
  | [] => some ([], [])

/-- Parse a JSON number (no leading zeros, optional fraction/exponent),
returning its lexeme. -/
def parseNumber (l : List Char) : Option (String × List Char) :=
  let nl : List Char × List Char :=
    match l with
    | c :: r => if c = '-' then ([c], r) else ([], l)
    | [] => ([], l)
  match nl.2 with
  | [] => none
  | c :: rest =>
    if c = '0' then
      match parseFrac rest with
      | none => none
      | some (f, r1) =>
        match parseExp r1 with
        | none => none
        | some (e, r2) => some (String.mk (nl.1 ++ [c] ++ f ++ e), r2)
    else if c.isDigit then
      let ds := rest.takeWhile Char.isDigit
      let r0 := rest.dropWhile Char.isDigit
      match parseFrac r0 with
      | none => none
      | some (f, r1) =>
        match parseExp r1 with
        | none => none
        | some (e, r2) => some (String.mk (nl.1 ++ (c :: ds) ++ f ++ e), r2)
    else none

/-- Parse a JSON literal: `null`, `true`, `false` or a number. -/
def parseLit (l : List Char) : Option (Json × List Char) :=
  match l with
  | [] => none
  | c :: rest =>
    if c = 'n' then
      match rest with
      | 'u' :: 'l' :: 'l' :: r => some (Json.jnull, r)
      | _ => none
    else if c = 't' then
      match rest with
      | 'r' :: 'u' :: 'e' :: r => some (Json.jbool true, r)
      | _ => none
    else if c = 'f' then
      match rest with
      | 'a' :: 'l' :: 's' :: 'e' :: r => some (Json.jbool false, r)
      | _ => none
    else (parseNumber (c :: rest)).map (fun p => (Json.jnum p.1, p.2))

mutual

/-- Parse one JSON value starting at `l` (after optional whitespace). -/
def parseVal (fuel : Nat) (l : List Char) : Option (Json × List Char) :=
  match fuel with
  | 0 => none
  | fuel + 1 =>
    match skipWs l with
    | [] => none
    | c :: rest =>
      if c = '\x7b' then parseObjFirst fuel rest
      else if c = '[' then parseArrFirst fuel rest
      else if c = '"' then
        (parseStringBody (rest.length + 1) rest []).map (fun p => (Json.jstr p.1, p.2))
      else parseLit (c :: rest)

/-- Parse an array body (after `[`): empty array or the element loop. -/
def parseArrFirst (fuel : Nat) (l : List Char) : Option (Json × List Char) :=
  match fuel with
  | 0 => none
  | fuel + 1 =>
    match skipWs l with
    | ']' :: rest => some (Json.jarr [], rest)
    | l1 => parseArrRest fuel l1 []

/-- The array element loop: value, then `,` to continue or `]` to close. -/
def parseArrRest (fuel : Nat) (l : List Char) (acc : List Json) :
    Option (Json × List Char) :=
  match fuel with
  | 0 => none
  | fuel + 1 =>
    match parseVal fuel l with
    | none => none
    | some (v, r) =>
      match skipWs r with
      | ',' :: r2 => parseArrRest fuel r2 (acc ++ [v])
      | ']' :: r2 => some (Json.jarr (acc ++ [v]), r2)
      | _ => none

/-- Parse an object body (after an opening brace): empty object or the
member loop. -/
def parseObjFirst (fuel : Nat) (l : List Char) : Option (Json × List Char) :=
  match fuel with
  | 0 => none
  | fuel + 1 =>
    match skipWs l with
    | '\x7d' :: rest => some (Json.jobj [], rest)
    | l1 => parseObjRest fuel l1 []

/-- The object member loop: string key, `:`, value, then `,` to continue or
a closing brace. -/
def parseObjRest (fuel : Nat) (l : List Char) (acc : List (String × Json)) :
    Option (Json × List Char) :=
  match fuel with
  | 0 => none
  | fuel + 1 =>
    match skipWs l with
    | '"' :: r =>
      match parseStringBody (r.length + 1) r [] with
      | none => none
      | some (key, r2) =>
        match skipWs r2 with
        | ':' :: r3 =>
          match parseVal fuel r3 with
          | none => none
          | some (v, r4) =>
            match skipWs r4 with
            | ',' :: r5 => parseObjRest fuel r5 (acc ++ [(key, v)])
            | '\x7d' :: r5 => some (Json.jobj (acc ++ [(key, v)]), r5)
            | _ => none
        | _ => none
    | _ => none

end

/-- `json.loads`: parse a complete document; trailing non-whitespace input
is an error ("Extra data"). -/
def jsonLoads (s : String) : Option Json :=
  match parseVal (4 * s.length + 8) s.data with
  | none => none
  | some (v, rest) => if skipWs rest = [] then some v else none

/-- Does `s` parse as a single JSON value? -/
def isJsonValue (s : String) : Bool := (jsonLoads s).isSome

/-- Does `s` parse as a single JSON object? -/
def isJsonObj (s : String) : Bool :=
  match jsonLoads s with
  | some (Json.jobj _) => true
  | _ => false

/-! ## ResponseParser (`response_parser.py`) -/

/-- First `some` among a list of attempts. -/
def firstSome {α : Type} : List (Option α) → Option α
  | [] => none
  | o :: rest =>
    match o with
    | some v => some v
    | none => firstSome rest

/-- `ResponseParser.parse_partial_args` (response_parser.py:17-41), written
`parsePartialArgs` here.  The argument is
`partial_response_function_call.get("arguments")` (`none` = key absent);
a missing or empty buffer returns nothing, otherwise a strict parse is
attempted, then parses with `]` + brace, brace + `]` + brace and
quote + brace + `]` + brace appended, in that order. -/
def parsePartialArgs (arguments : Option String) : Option Json :=
  match arguments with
  | none => none
  | some data =>
    if data = "" then none
    else
      match jsonLoads data with
      | some v => some v
      | none =>
        match jsonLoads (data ++ "]\x7d") with
        | some v => some v
        | none =>
          match jsonLoads (data ++ "\x7d]\x7d") with
          | some v => some v
          | none => jsonLoads (data ++ "\"\x7d]\x7d")

/-! ## ToolUseManager (`tool_use.py`) -/

/-- Python's `str.strip()` whitespace test (ASCII range). -/
def pyWs (c : Char) : Bool :=
  c == ' ' || c == '\t' || c == '\n' || c == '\r' || c == '\x0b' || c == '\x0c'

/-- Python's `str.strip()` on the character list. -/
def pyStripL (l : List Char) : List Char :=
  ((l.dropWhile pyWs).reverse.dropWhile pyWs).reverse

/-- Python's `str.strip()`. -/
def pyStrip (s : String) : String := String.mk (pyStripL s.data)

/-- A tool call: identifier, target function name, raw argument payload. -/
structure ToolCall where
  id : String
  name : String
  args : String
deriving DecidableEq, Repr

/-- Modelled from the spec: `utils.split_concatenated_json` (aider.utils,
not under src/) — a lenient scanner splitting a buffer into top-level
concatenated JSON values by tracking brace/bracket depth and string
state; a trailing unclosed value is emitted as a final chunk (a trailing
all-whitespace remainder is not a value and yields no chunk). -/
def splitCJAux : List Char → Nat → Bool → Bool → List Char → List String → List String
  | [], _, _, _, cur, acc =>
      if cur.any (fun c => !pyWs c) then acc ++ [String.mk cur] else acc
  | c :: rest, depth, inStr, esc, cur, acc =>
      if inStr then
        if esc then splitCJAux rest depth true false (cur ++ [c]) acc
        else if c = '\\' then splitCJAux rest depth true true (cur ++ [c]) acc
        else if c = '"' then splitCJAux rest depth false false (cur ++ [c]) acc
        else splitCJAux rest depth true false (cur ++ [c]) acc
      else if c = '"' then splitCJAux rest depth true false (cur ++ [c]) acc
      else if c = '\x7b' || c = '[' then splitCJAux rest (depth + 1) false false (cur ++ [c]) acc
      else if c = '\x7d' || c = ']' then
        if depth ≤ 1 then splitCJAux rest 0 false false [] (acc ++ [String.mk (cur ++ [c])])
        else splitCJAux rest (depth - 1) false false (cur ++ [c]) acc
      else splitCJAux rest depth false false (cur ++ [c]) acc

/-- Modelled from the spec: entry point of the concatenated-JSON splitter. -/
def splitConcatenatedJson (s : String) : List String :=
  splitCJAux s.data 0 false false [] []

/-- The guard of the expansion step (tool_use.py:58): a non-empty stripped
buffer starting with a brace or bracket. -/
def looksLikeJson (argsChars : List Char) : Bool :=
  match argsChars with
  | c :: _ => c == '\x7b' || c == '['
  | [] => false

/-- The expansion step of `ToolUseManager.process_tool_calls`
(tool_use.py:51-79) for one source tool call: strip the argument buffer;
pass through unless it looks like JSON and splits into several chunks;
otherwise emit one derived call per non-blank chunk with identifier
`{id}-{n}` and that chunk as its arguments. -/
def expandToolCall (call : ToolCall) : List ToolCall :=
  let argsChars := pyStripL call.args.data
  let args := String.mk argsChars
  if !looksLikeJson argsChars then [call]
  else
    let chunks := splitConcatenatedJson args
    if chunks.length ≤ 1 then [call]
    else
      chunks.enum.filterMap (fun p =>
        if pyStrip p.2 = "" then none
        else some { call with id := call.id ++ "-" ++ toString p.1, args := p.2 })

/-- Expansion over a whole response's tool-call list. -/
def expandToolCalls (calls : List ToolCall) : List ToolCall :=
  calls.flatMap expandToolCall

/-- An MCP server, identified for routing by its `name`; `sid` distinguishes
distinct server objects. -/
structure Server where
  sid : Nat
  name : String
deriving DecidableEq, Repr

/-- Python's `str.lower()` on one character (ASCII range, which covers tool
names). -/
def lowerChar (c : Char) : Char :=
  if 'A' ≤ c ∧ c ≤ 'Z' then Char.ofNat (c.toNat + 32) else c

/-- Python's `str.lower()` (ASCII range). -/
def lowerStr (s : String) : String := String.mk (s.data.map lowerChar)

/-- The name-match test of `_gather_server_tool_calls` (tool_use.py:134-137):
the advertised schema name must be present and truthy, and equal to the
call's function name case-insensitively. -/
def toolNameMatches (callName : String) (toolName : Option String) : Bool :=
  match toolName with
  | none => false
  | some n => n != "" && lowerStr n == lowerStr callName

/-- The `server_tool_calls` dictionary: insertion-ordered association list
from servers to their routed calls. -/
abbrev ToolDict := List (Server × List ToolCall)

/-- `server_tool_calls[server].append(tool_call)` with dict insertion
semantics. -/
def dictAppend (d : ToolDict) (s : Server) (c : ToolCall) : ToolDict :=
  match d with
  | [] => [(s, [c])]
  | (k, v) :: rest => if k = s then (k, v ++ [c]) :: rest else (k, v) :: dictAppend rest s c

/-- Dictionary lookup (empty list when the server has no entry). -/
def dictLookup (d : ToolDict) (s : Server) : List ToolCall :=
  match d.find? (fun e => decide (e.1 = s)) with
  | some e => e.2
  | none => []

/-- The `for server in self.mcp_servers: if server.name == server_name`
lookup with its `break`: the first server object with the given name. -/
def findServer (mcpServers : List Server) (serverName : String) : Option Server :=
  mcpServers.find? (fun s => decide (s.name = serverName))

/-- One `(server_name, server_tools)` iteration of the routing loop in
`_gather_server_tool_calls` (tool_use.py:132-145): for every advertised
tool whose name matches, append the call to the dispatch list of the
first server object with that entry's name. -/
def routeCallStep (mcpServers : List Server) (call : ToolCall) (d : ToolDict)
    (entry : String × List (Option String)) : ToolDict :=
  entry.2.foldl (fun d t =>
    if toolNameMatches call.name t then
      match findServer mcpServers entry.1 with
      | some s => dictAppend d s call
      | none => d
    else d) d

/-- `ToolUseManager._gather_server_tool_calls` (tool_use.py:118-147):
`none` when no tool lists were advertised (`mcp_tools` falsy), otherwise
the dispatch dictionary built by the nested routing loops. -/
def gather_server_tool_calls (mcpTools : List (String × List (Option String)))
    (mcpServers : List Server) (toolCalls : List ToolCall) : Option ToolDict :=
  if mcpTools.isEmpty then none
  else some (toolCalls.foldl (fun d call => mcpTools.foldl (routeCallStep mcpServers call) d) [])

/-- Specification-side routing of a single call: the servers (with
multiplicity, in advertisement order) whose advertised lists produce a
match for the call. -/
def matchServers (mcpTools : List (String × List (Option String)))
    (mcpServers : List Server) (call : ToolCall) : List Server :=
  mcpTools.flatMap (fun entry =>
    (entry.2.filter (toolNameMatches call.name)).filterMap
      (fun _ => findServer mcpServers entry.1))

/-- Outcome of running one tool call against a connected session:
success payload, a generic exception, or `httpx.RemoteProtocolError`. -/
inductive CallOutcome where
  | ok (result : String)
  | err (msg : String)
  | remoteDisconnect (msg : String)

/-- Outcome of `server.connect()`. -/
inductive ConnectOutcome where
  | ok
  | remoteDisconnect (msg : String)
  | err (msg : String)

/-- A tool response message (`role` is always `"tool"`). -/
structure ToolResponse where
  toolCallId : String
  content : String
deriving DecidableEq, Repr

/-- The per-call error text (tool_use.py:248). -/
def toolErrorText (callName msg : String) : String :=
  "Error executing tool call " ++ callName ++ ": \n" ++ msg

/-- The remote-disconnect connection-error text (tool_use.py:257). -/
def connectionErrorRemote (serverName msg : String) : String :=
  "Server " ++ serverName ++ " disconnected unexpectedly: " ++ msg

/-- The generic connection-error text (tool_use.py:264). -/
def connectionErrorGeneric (serverName msg : String) : String :=
  "Could not connect to server " ++ serverName ++ "\n" ++ msg

/-- `_exec_server_tools` (tool_use.py:155-273, remote-server path).  A
failed `connect` turns every routed call into the same connection-error
response.  After a successful connect, each call yields exactly one
response; any exception during a call — `httpx.RemoteProtocolError`
included, since the inner `except Exception` is the innermost handler —
becomes that call's own error response and the remaining calls still
run. -/
def exec_server_tools (connect : ConnectOutcome) (runCall : ToolCall → CallOutcome)
    (serverName : String) (calls : List ToolCall) : List ToolResponse :=
  match connect with
  | .remoteDisconnect e => calls.map (fun c => ⟨c.id, connectionErrorRemote serverName e⟩)
  | .err e => calls.map (fun c => ⟨c.id, connectionErrorGeneric serverName e⟩)
  | .ok =>
      calls.map (fun c =>
        match runCall c with
        | .ok r => ⟨c.id, r⟩
        | .err m => ⟨c.id, toolErrorText c.name m⟩
        | .remoteDisconnect m => ⟨c.id, toolErrorText c.name m⟩)

/-- `_execute_tool_calls` (tool_use.py:149-305): run every server group and
flatten the responses in dispatch order. -/
def execute_tool_calls (connect : Server → ConnectOutcome)
    (runCall : Server → ToolCall → CallOutcome) (d : ToolDict) : List ToolResponse :=
  d.flatMap (fun e => exec_server_tools (connect e.1) (runCall e.1) e.1.name e.2)

/-! ## Helper lemmas -/

/-- A list never equals itself extended by one element. -/
theorem self_ne_append_singleton {α : Type} (l : List α) (m : α) : l ≠ l ++ [m] := by
  intro h
  have hlen := congrArg List.length h
  simp at hlen

/-- `check_added_files` never changes the in-chat set. -/
theorem check_added_files_absFnames (env : FMEnv) (st : FMState) :
    (check_added_files env st).1.absFnames = st.absFnames := by
  unfold check_added_files
  split
  · rfl
  · split
    · rfl
    · split <;> rfl

/-- The inserted element is a member after `addSet`. -/
theorem addSet_self_mem (l : List String) (x : String) : x ∈ addSet l x := by
  unfold addSet
  split
  · assumption
  · simp

/-! ## C10 — the "too many files" warning fires at most once -/

/-- C10: the "too many files in chat" warning is emitted at most once per
`FileManager` lifetime — once `warning_given` is set, `check_added_files`
returns immediately with no warning and an unchanged state, and any number
of subsequent `add_rel_fname` calls emit zero warnings; a warning sets the
flag; and no warning is emitted with fewer than 4 files in chat or with
the combined (non-image) token count below the 20·1024 threshold. -/
theorem check_added_files_spec :
    (∀ (env : FMEnv) (st : FMState), st.warningGiven = true →
      check_added_files env st = (st, false)) ∧
    (∀ (env : FMEnv) (st : FMState), st.absFnames.length < 4 →
      (check_added_files env st).2 = false) ∧
    (∀ (env : FMEnv) (st : FMState), chatTokens env st < 20 * 1024 →
      (check_added_files env st).2 = false) ∧
    (∀ (env : FMEnv) (st : FMState), (check_added_files env st).2 = true →
      (check_added_files env st).1.warningGiven = true) ∧
    (∀ (env : FMEnv) (st : FMState) (fs : List String), st.warningGiven = true →
      (run_adds env st fs).2 = 0 ∧ (run_adds env st fs).1.warningGiven = true) := by
  refine ⟨?_, ?_, ?_, ?_, ?_⟩
  · intro env st h
    unfold check_added_files
    simp [h]
  · intro env st h
    unfold check_added_files
    split_ifs <;> rfl
  · intro env st h
    unfold check_added_files
    split_ifs <;> rfl
  · intro env st h
    revert h
    unfold check_added_files
    split_ifs <;> intro h <;> simp_all
  · intro env st fs h
    have key : ∀ (fs : List String) (st : FMState) (n : Nat),
        st.warningGiven = true →
        (fs.foldl (fun (acc : FMState × Nat) f =>
          let r := add_rel_fname env acc.1 f
          (r.1, acc.2 + (if r.2 then 1 else 0))) (st, n)).2 = n ∧
        (fs.foldl (fun (acc : FMState × Nat) f =>
          let r := add_rel_fname env acc.1 f
          (r.1, acc.2 + (if r.2 then 1 else 0))) (st, n)).1.warningGiven = true := by
      intro fs
      induction fs with
      | nil => intro st n hw; exact ⟨rfl, hw⟩
      | cons f rest ih =>
        intro st n hw
        have hstep : add_rel_fname env st f =
            ({ st with absFnames := addSet st.absFnames (env.absRoot f) }, false) := by
          unfold add_rel_fname check_added_files
          simp [hw]
        simp only [List.foldl, hstep]
        exact ih _ n hw
    exact key fs st 0 h

/-- Witness for C10 at concrete inputs: a warned one-file state, a
below-count state, a below-token state, a state that warns, and a
sequence of adds after the warning. -/
theorem check_added_files_spec_witness :
    check_added_files ⟨fun _ => false, fun _ => 1, fun p => p⟩ ⟨["a"], true⟩
      = (⟨["a"], true⟩, false) ∧
    (check_added_files ⟨fun _ => false, fun _ => 1, fun p => p⟩ ⟨["a"], false⟩).2 = false ∧
    (check_added_files ⟨fun _ => false, fun _ => 1, fun p => p⟩
      ⟨["a", "b", "c", "d"], false⟩).2 = false ∧
    (check_added_files ⟨fun _ => false, fun _ => 30000, fun p => p⟩
      ⟨["a", "b", "c", "d"], false⟩).1.warningGiven = true ∧
    (run_adds ⟨fun _ => false, fun _ => 30000, fun p => p⟩
      ⟨["a", "b", "c", "d"], true⟩ ["x", "y"]).2 = 0 :=
  ⟨check_added_files_spec.1 _ _ rfl,
   check_added_files_spec.2.1 _ _ (by decide),
   check_added_files_spec.2.2.1 _ _ (by decide),
   check_added_files_spec.2.2.2.1 _ _ (by decide),
   (check_added_files_spec.2.2.2.2 _ _ ["x", "y"] rfl).1⟩

/-! ## C5 — the summarization check-and-swap race guard -/

/-- C5: if a message is appended to the live done list after the background
worker snapshots it and before `summarize_end` runs, the worker's summary
is discarded (the summarized replacement is cleared, the live list — new
message included — is unchanged); if the live list still equals the
snapshot, the summarized replacement is swapped in. -/
theorem summarize_race_guard :
    (∀ (env : RuntimeEnv) (st : RuntimeState) (m : Message), st.threadActive = true →
      (summarize_end { summarize_worker env st with
          doneMessages := (summarize_worker env st).doneMessages ++ [m] }).doneMessages
        = st.doneMessages ++ [m] ∧
      (summarize_end { summarize_worker env st with
          doneMessages := (summarize_worker env st).doneMessages ++ [m]
        }).summarizedDoneMessages = []) ∧
    (∀ (env : RuntimeEnv) (st : RuntimeState), st.threadActive = true →
      (summarize_end (summarize_worker env st)).doneMessages
        = (summarize_worker env st).summarizedDoneMessages) := by
  constructor
  · intro env st m h
    have hne := self_ne_append_singleton st.doneMessages m
    cases hs : env.summarize st.doneMessages <;>
      simp [summarize_worker, summarize_end, hs, h, hne]
  · intro env st h
    cases hs : env.summarize st.doneMessages <;>
      simp [summarize_worker, summarize_end, hs, h]

/-- Witness for C5: a one-message history, a worker that summarizes it to
nothing, and an appended message. -/
theorem summarize_race_guard_witness :
    (summarize_end { summarize_worker
        ⟨fun l => l.length, 0, 1, false, fun _ => .ok [], fun _ => .ok "s"⟩
        ⟨[⟨"user", "hi"⟩], true, none, [], []⟩ with
        doneMessages := (summarize_worker
          ⟨fun l => l.length, 0, 1, false, fun _ => .ok [], fun _ => .ok "s"⟩
          ⟨[⟨"user", "hi"⟩], true, none, [], []⟩).doneMessages ++ [⟨"assistant", "yo"⟩]
      }).doneMessages = [⟨"user", "hi"⟩, ⟨"assistant", "yo"⟩] ∧
    (summarize_end (summarize_worker
        ⟨fun l => l.length, 0, 1, false, fun _ => .ok [], fun _ => .ok "s"⟩
        ⟨[⟨"user", "hi"⟩], true, none, [], []⟩)).doneMessages
      = (summarize_worker
          ⟨fun l => l.length, 0, 1, false, fun _ => .ok [], fun _ => .ok "s"⟩
          ⟨[⟨"user", "hi"⟩], true, none, [], []⟩).summarizedDoneMessages :=
  ⟨(summarize_race_guard.1 _ _ _ rfl).1, summarize_race_guard.2 _ _ rfl⟩

/-! ## C6 — compaction success and failure fallback -/

/-- C6: with compaction enabled and the compaction threshold exceeded, a
non-empty summary text replaces the entire done history with exactly the
two-message pair (user summary, assistant acknowledgment); on a raised
exception or an empty summary (given no summarization already in flight,
and the summarizer threshold at most the compaction threshold), the done
list is left identical, two warnings are emitted and a background
summarization is started instead. -/
theorem compact_context_spec :
    (∀ (env : RuntimeEnv) (st : RuntimeState) (t : String),
      env.enableCompaction = true →
      check_max_tokens env.tokenCount st.doneMessages env.compactionMaxTokens = true →
      env.summarizeAllAsText st.doneMessages = .ok t → t ≠ "" →
      compact_context_if_needed env st = { st with doneMessages :=
        [{ role := "user", content := t },
         { role := "assistant", content := compactionAck }] }) ∧
    (∀ (env : RuntimeEnv) (st : RuntimeState) (e : String),
      env.enableCompaction = true →
      check_max_tokens env.tokenCount st.doneMessages env.compactionMaxTokens = true →
      env.summarizeAllAsText st.doneMessages = .error e →
      st.threadActive = false →
      env.summarizerMaxTokens ≤ env.compactionMaxTokens →
      (compact_context_if_needed env st).doneMessages = st.doneMessages ∧
      (compact_context_if_needed env st).warnings = st.warnings ++
        ["Context compaction failed: " ++ e, "Proceeding with full history for now."] ∧
      (compact_context_if_needed env st).threadActive = true) ∧
    (∀ (env : RuntimeEnv) (st : RuntimeState),
      env.enableCompaction = true →
      check_max_tokens env.tokenCount st.doneMessages env.compactionMaxTokens = true →
      env.summarizeAllAsText st.doneMessages = .ok "" →
      st.threadActive = false →
      env.summarizerMaxTokens ≤ env.compactionMaxTokens →
      (compact_context_if_needed env st).doneMessages = st.doneMessages ∧
      (compact_context_if_needed env st).warnings = st.warnings ++
        ["Context compaction failed: Summarization returned an empty result.",
         "Proceeding with full history for now."] ∧
      (compact_context_if_needed env st).threadActive = true) := by
  refine ⟨?_, ?_, ?_⟩
  · intro env st t hE hC hres ht
    simp [compact_context_if_needed, hE, hC, hres, ht]
  · intro env st e hE hC hres hth hle
    have hC' := hC
    unfold check_max_tokens at hC'
    have hCtok := of_decide_eq_true hC'
    have htok : env.summarizerMaxTokens < env.tokenCount st.doneMessages :=
      lt_of_le_of_lt hle hCtok
    simp [compact_context_if_needed, hE, hC, hres, summarize_start, check_max_tokens,
      htok, summarize_end, hth, Nat.not_le.mpr hCtok, Nat.not_le.mpr htok]
  · intro env st hE hC hres hth hle
    have hC' := hC
    unfold check_max_tokens at hC'
    have hCtok := of_decide_eq_true hC'
    have htok : env.summarizerMaxTokens < env.tokenCount st.doneMessages :=
      lt_of_le_of_lt hle hCtok
    simp [compact_context_if_needed, hE, hC, hres, summarize_start, check_max_tokens,
      htok, summarize_end, hth, Nat.not_le.mpr hCtok, Nat.not_le.mpr htok]

/-- Witness for C6: a one-message history over the thresholds, with a
successful, a raising and an empty-summary oracle. -/
theorem compact_context_spec_witness :
    compact_context_if_needed
      ⟨fun l => l.length, 0, 0, true, fun _ => .ok [], fun _ => .ok "S"⟩
      ⟨[⟨"user", "hi"⟩], false, none, [], []⟩
      = { doneMessages := [{ role := "user", content := "S" },
            { role := "assistant", content := compactionAck }],
          threadActive := false, summarizingMessages := none,
          summarizedDoneMessages := [], warnings := [] } ∧
    (compact_context_if_needed
      ⟨fun l => l.length, 0, 0, true, fun _ => .ok [], fun _ => .error "boom"⟩
      ⟨[⟨"user", "hi"⟩], false, none, [], []⟩).doneMessages = [⟨"user", "hi"⟩] ∧
    (compact_context_if_needed
      ⟨fun l => l.length, 0, 0, true, fun _ => .ok [], fun _ => .ok ""⟩
      ⟨[⟨"user", "hi"⟩], false, none, [], []⟩).threadActive = true := by
  refine ⟨?_, ?_, ?_⟩
  · exact compact_context_spec.1 _ _ "S" rfl (by decide) rfl (by decide)
  · exact (compact_context_spec.2.1 _ _ "boom" rfl (by decide) rfl rfl (by decide)).1
  · exact (compact_context_spec.2.2 _ _ rfl (by decide) rfl rfl (by decide)).2.2

/-! ## C3 — create-file authorization flow -/

/-- C3: for a path neither on disk nor in chat (and not blocked by
gitignore), a declined create-confirmation returns unauthorized with the
whole session state — in-chat set, disk, staged and created files —
unchanged; on approval outside dry-run with a successful touch, the flow
returns authorized, creates the file, stages it exactly when the
repository does not already track it, and adds it to the in-chat set. -/
theorem allowed_to_edit_create_spec :
    (∀ (env : EditorEnv) (st : EditorState) (path : String),
      env.fm.absRoot path ∉ st.fm.absFnames →
      env.fm.absRoot path ∉ st.disk →
      (env.repoPresent && env.gitIgnored path) = false →
      env.confirmCreate path = false →
      allowed_to_edit env st path = (false, st)) ∧
    (∀ (env : EditorEnv) (st : EditorState) (path : String),
      env.fm.absRoot path ∉ st.fm.absFnames →
      env.fm.absRoot path ∉ st.disk →
      (env.repoPresent && env.gitIgnored path) = false →
      env.confirmCreate path = true →
      env.dryRun = false →
      env.touchOk path = true →
      (allowed_to_edit env st path).1 = true ∧
      env.fm.absRoot path ∈ (allowed_to_edit env st path).2.fm.absFnames ∧
      (allowed_to_edit env st path).2.created = st.created ++ [env.fm.absRoot path] ∧
      ((env.repoPresent && !env.pathInRepo path) = true →
        (allowed_to_edit env st path).2.staged = addSet st.staged (env.fm.absRoot path)) ∧
      ((env.repoPresent && !env.pathInRepo path) = false →
        (allowed_to_edit env st path).2.staged = st.staged)) := by
  constructor
  · intro env st path h1 h2 hig hcc
    simp [allowed_to_edit, h1, h2, hig, hcc]
  · intro env st path h1 h2 hig hcc hdr hto
    cases hna : env.repoPresent && !env.pathInRepo path <;>
      simp [allowed_to_edit, h1, h2, hig, hcc, hdr, hto, hna, fmAddFname,
        check_added_files_absFnames, addSet_self_mem]

/-- Witness for C3: an untracked new path in an empty session, declined and
then approved. -/
theorem allowed_to_edit_create_spec_witness :
    allowed_to_edit
      ⟨⟨fun _ => false, fun _ => 0, fun p => p⟩, true, fun _ => false, fun _ => false,
        false, false, fun _ => false, fun _ => false, fun _ => true, fun _ => true, true⟩
      ⟨⟨[], false⟩, [], [], [], [], []⟩ "foo.py"
      = (false, ⟨⟨[], false⟩, [], [], [], [], []⟩) ∧
    (allowed_to_edit
      ⟨⟨fun _ => false, fun _ => 0, fun p => p⟩, true, fun _ => false, fun _ => false,
        false, false, fun _ => false, fun _ => true, fun _ => true, fun _ => true, true⟩
      ⟨⟨[], false⟩, [], [], [], [], []⟩ "foo.py").1 = true ∧
    "foo.py" ∈ (allowed_to_edit
      ⟨⟨fun _ => false, fun _ => 0, fun p => p⟩, true, fun _ => false, fun _ => false,
        false, false, fun _ => false, fun _ => true, fun _ => true, fun _ => true, true⟩
      ⟨⟨[], false⟩, [], [], [], [], []⟩ "foo.py").2.fm.absFnames ∧
    (allowed_to_edit
      ⟨⟨fun _ => false, fun _ => 0, fun p => p⟩, true, fun _ => false, fun _ => false,
        false, false, fun _ => false, fun _ => true, fun _ => true, fun _ => true, true⟩
      ⟨⟨[], false⟩, [], [], [], [], []⟩ "foo.py").2.created = ["foo.py"] := by
  refine ⟨?_, ?_, ?_, ?_⟩
  · exact allowed_to_edit_create_spec.1
      ⟨⟨fun _ => false, fun _ => 0, fun p => p⟩, true, fun _ => false, fun _ => false,
        false, false, fun _ => false, fun _ => false, fun _ => true, fun _ => true, true⟩
      ⟨⟨[], false⟩, [], [], [], [], []⟩ "foo.py" (by decide) (by decide) (by decide) rfl
  · exact (allowed_to_edit_create_spec.2
      ⟨⟨fun _ => false, fun _ => 0, fun p => p⟩, true, fun _ => false, fun _ => false,
        false, false, fun _ => false, fun _ => true, fun _ => true, fun _ => true, true⟩
      ⟨⟨[], false⟩, [], [], [], [], []⟩ "foo.py" (by decide) (by decide) (by decide)
      rfl rfl rfl).1
  · exact (allowed_to_edit_create_spec.2
      ⟨⟨fun _ => false, fun _ => 0, fun p => p⟩, true, fun _ => false, fun _ => false,
        false, false, fun _ => false, fun _ => true, fun _ => true, fun _ => true, true⟩
      ⟨⟨[], false⟩, [], [], [], [], []⟩ "foo.py" (by decide) (by decide) (by decide)
      rfl rfl rfl).2.1
  · exact (allowed_to_edit_create_spec.2
      ⟨⟨fun _ => false, fun _ => 0, fun p => p⟩, true, fun _ => false, fun _ => false,
        false, false, fun _ => false, fun _ => true, fun _ => true, fun _ => true, true⟩
      ⟨⟨[], false⟩, [], [], [], [], []⟩ "foo.py" (by decide) (by decide) (by decide)
      rfl rfl rfl).2.2.1

/-! ## C9 — auto-commit outcomes -/

/-- C9: `auto_commit` returns nothing and attempts no commit without a
repository, with auto-commits disabled or in dry-run; with a
`(hash, message)` commit result it returns the "files edited" notice
formatted with them; with nothing to commit it returns the distinct
"no edits" notice (never equal to any "files edited" notice); on a VCS
error it reports the error and returns nothing. -/
theorem auto_commit_spec :
    (∀ (env : EditorEnv) (commit : AutoCommitOracle) (edited : List String)
       (ctx : Option String) (msgs : List Message),
      env.repoPresent = false ∨ env.autoCommits = false ∨ env.dryRun = true →
      auto_commit env commit edited ctx msgs
        = { result := none, attempted := false, errors := [] }) ∧
    (∀ (env : EditorEnv) (commit : AutoCommitOracle) (edited : List String)
       (ctx : Option String) (msgs : List Message) (hsh m : String),
      env.repoPresent = true → env.autoCommits = true → env.dryRun = false →
      commit edited (autoCommitContext ctx msgs) = .ok (some (hsh, m)) →
      auto_commit env commit edited ctx msgs
        = { result := some (files_content_gpt_edits hsh m), attempted := true, errors := [] }) ∧
    (∀ (env : EditorEnv) (commit : AutoCommitOracle) (edited : List String)
       (ctx : Option String) (msgs : List Message),
      env.repoPresent = true → env.autoCommits = true → env.dryRun = false →
      commit edited (autoCommitContext ctx msgs) = .ok none →
      auto_commit env commit edited ctx msgs
        = { result := some files_content_gpt_no_edits, attempted := true, errors := [] }) ∧
    (∀ hsh m : String, files_content_gpt_no_edits ≠ files_content_gpt_edits hsh m) ∧
    (∀ (env : EditorEnv) (commit : AutoCommitOracle) (edited : List String)
       (ctx : Option String) (msgs : List Message) (e : String),
      env.repoPresent = true → env.autoCommits = true → env.dryRun = false →
      commit edited (autoCommitContext ctx msgs) = .error e →
      auto_commit env commit edited ctx msgs
        = { result := none, attempted := true, errors := ["Unable to commit: " ++ e] }) := by
  refine ⟨?_, ?_, ?_, ?_, ?_⟩
  · intro env commit edited ctx msgs h
    unfold auto_commit
    rcases h with h | h | h <;> simp [h]
  · intro env commit edited ctx msgs hsh m h1 h2 h3 hres
    simp [auto_commit, h1, h2, h3, hres]
  · intro env commit edited ctx msgs h1 h2 h3 hres
    simp [auto_commit, h1, h2, h3, hres]
  · intro hsh m heq
    have hl := congrArg String.length heq
    simp only [files_content_gpt_no_edits, files_content_gpt_edits,
      String.length_append] at hl
    have e1 : ("No edits were made." : String).length = 19 := rfl
    have e2 : ("Files edited, committed " : String).length = 24 := rfl
    have e3 : (": " : String).length = 2 := rfl
    rw [e1, e2, e3] at hl
    omega
  · intro env commit edited ctx msgs e h1 h2 h3 hres
    simp [auto_commit, h1, h2, h3, hres]

/-- Witness for C9: a dry-run no-op, a successful commit, a
nothing-to-commit outcome, the notice distinctness at `h0`/`first`, and a
raising VCS layer. -/
theorem auto_commit_spec_witness :
    auto_commit
      ⟨⟨fun _ => false, fun _ => 0, fun p => p⟩, true, fun _ => false, fun _ => false,
        true, false, fun _ => false, fun _ => true, fun _ => true, fun _ => true, true⟩
      (fun _ _ => .ok none) ["a.py"] none []
      = { result := none, attempted := false, errors := [] } ∧
    auto_commit
      ⟨⟨fun _ => false, fun _ => 0, fun p => p⟩, true, fun _ => false, fun _ => false,
        false, false, fun _ => false, fun _ => true, fun _ => true, fun _ => true, true⟩
      (fun _ _ => .ok (some ("h0", "msg"))) ["a.py"] none []
      = { result := some (files_content_gpt_edits "h0" "msg"), attempted := true,
          errors := [] } ∧
    auto_commit
      ⟨⟨fun _ => false, fun _ => 0, fun p => p⟩, true, fun _ => false, fun _ => false,
        false, false, fun _ => false, fun _ => true, fun _ => true, fun _ => true, true⟩
      (fun _ _ => .ok none) [] none [⟨"user", "hi"⟩]
      = { result := some files_content_gpt_no_edits, attempted := true, errors := [] } ∧
    files_content_gpt_no_edits ≠ files_content_gpt_edits "h0" "first" ∧
    auto_commit
      ⟨⟨fun _ => false, fun _ => 0, fun p => p⟩, true, fun _ => false, fun _ => false,
        false, false, fun _ => false, fun _ => true, fun _ => true, fun _ => true, true⟩
      (fun _ _ => .error "lock held") ["a.py"] none []
      = { result := none, attempted := true, errors := ["Unable to commit: lock held"] } := by
  refine ⟨?_, ?_, ?_, ?_, ?_⟩
  · exact auto_commit_spec.1 _ _ ["a.py"] none [] (Or.inr (Or.inr rfl))
  · exact auto_commit_spec.2.1 _ _ ["a.py"] none [] "h0" "msg" rfl rfl rfl rfl
  · exact auto_commit_spec.2.2.1 _ _ [] none [⟨"user", "hi"⟩] rfl rfl rfl rfl
  · exact auto_commit_spec.2.2.2.1 "h0" "first"
  · exact auto_commit_spec.2.2.2.2 _ _ ["a.py"] none [] "lock held" rfl rfl rfl rfl

/-! ## C2 — parse-recovery policy of `parse_partial_args` -/

/-- C2, counterexample: the claim states that for buffer `[{"a":1` the `]}`
append succeeds.  In fact `[{"a":1]}` closes the still-open object with a
bracket, so that tier fails — as do the strict parse and the other two
appends — and `parse_partial_args` returns nothing for this buffer. -/
theorem parsePartialArgs_counterexample :
    jsonLoads ("[\x7b\"a\":1" ++ "]\x7d") = none ∧
    parsePartialArgs (some "[\x7b\"a\":1") = none :=
  ⟨rfl, rfl⟩

/-- C2, amended: `parse_partial_args` tries the strict parse, then the `]}`,
`}]}` and `"}]}` appends in that order and returns the first success,
nothing when all four fail (an absent or empty buffer also returns
nothing).  For the three buffers named by the claim — `[{"a":1`,
`[{"a":1}` and `[{"a":"x` — every tier fails (each append leaves an
unclosed construct or trailing data) and nothing is returned; buffers such
as `{"a":[1` do succeed at their respective tier. -/
theorem parsePartialArgs_policy :
    (∀ data : String, parsePartialArgs (some data) =
      if data = "" then none
      else firstSome [jsonLoads data, jsonLoads (data ++ "]\x7d"),
        jsonLoads (data ++ "\x7d]\x7d"), jsonLoads (data ++ "\"\x7d]\x7d")]) ∧
    parsePartialArgs none = none ∧
    parsePartialArgs (some "[\x7b\"a\":1") = none ∧
    parsePartialArgs (some "[\x7b\"a\":1\x7d") = none ∧
    parsePartialArgs (some "[\x7b\"a\":\"x") = none ∧
    jsonLoads "\x7b\"a\":[1" = none ∧
    (jsonLoads ("\x7b\"a\":[1" ++ "]\x7d")).isSome = true ∧
    parsePartialArgs (some "\x7b\"a\":[1") = jsonLoads ("\x7b\"a\":[1" ++ "]\x7d") := by
  refine ⟨?_, rfl, rfl, rfl, rfl, rfl, rfl, rfl⟩
  intro data
  by_cases hd : data = ""
  · simp [parsePartialArgs, hd]
  · rw [if_neg hd]
    simp only [parsePartialArgs]
    rw [if_neg hd]
    cases h1 : jsonLoads data
    · cases h2 : jsonLoads (data ++ "]\x7d")
      · cases h3 : jsonLoads (data ++ "\x7d]\x7d")
        · cases h4 : jsonLoads (data ++ "\"\x7d]\x7d") <;>
            simp [firstSome, h1, h2, h3, h4]
        · simp [firstSome, h1, h2, h3]
      · simp [firstSome, h1, h2]
    · simp [firstSome, h1]

/-! ## C4 — concatenated-JSON expansion -/

/-- The head of a non-empty `dropWhile` result fails the predicate. -/
theorem dropWhile_head_false {α : Type} {p : α → Bool} :
    ∀ {l : List α} {c : α} {r : List α}, l.dropWhile p = c :: r → p c = false := by
  intro l
  induction l with
  | nil => intro c r h; simp at h
  | cons x xs ih =>
    intro c r h
    by_cases hx : p x
    · rw [List.dropWhile_cons_of_pos hx] at h
      exact ih h
    · rw [List.dropWhile_cons_of_neg hx] at h
      cases h
      exact Bool.of_not_eq_true hx

/-- An all-whitespace (in the Python `strip` sense) buffer never parses as
JSON. -/
theorem jsonLoads_all_ws (s : String) (h : ∀ x ∈ s.data, pyWs x = true) :
    jsonLoads s = none := by
  have key : ∀ (fuel : Nat), parseVal fuel s.data = none := by
    intro fuel
    cases fuel with
    | zero => rfl
    | succ n =>
      cases hsw : skipWs s.data with
      | nil => simp [parseVal, hsw]
      | cons c r =>
        have hcmem : c ∈ s.data := by
          have hsub := List.dropWhile_sublist (p := jsonWs) (l := s.data)
          have : c ∈ skipWs s.data := by rw [hsw]; exact List.mem_cons_self c r
          exact hsub.subset this
        have hpy : pyWs c = true := h c hcmem
        have hjw : jsonWs c = false := dropWhile_head_false hsw
        have hcc : c = '\x0b' ∨ c = '\x0c' := by
          unfold pyWs at hpy
          unfold jsonWs at hjw
          simp only [Bool.or_eq_true, beq_iff_eq] at hpy
          simp only [Bool.or_eq_false_iff, beq_eq_false_iff_ne, ne_eq] at hjw
          rcases hpy with h1 | h1 | h1 | h1 | h1 | h1 <;> simp_all
        rcases hcc with hc | hc <;>
          · subst hc
            simp [parseVal, hsw, parseLit, parseNumber]
  unfold jsonLoads
  rw [key]

/-- A buffer that Python-strips to the empty string is all whitespace. -/
theorem pyStrip_empty_all_ws {s : String} (h : pyStrip s = "") :
    ∀ x ∈ s.data, pyWs x = true := by
  have hl : pyStripL s.data = [] := congrArg String.data h
  unfold pyStripL at hl
  rw [List.reverse_eq_nil_iff] at hl
  rw [List.dropWhile_eq_nil_iff] at hl
  intro x hx
  have hsplit := List.takeWhile_append_dropWhile (p := pyWs) (l := s.data)
  rw [← hsplit] at hx
  rcases List.mem_append.mp hx with hx | hx
  · exact List.mem_takeWhile_imp hx
  · exact hl x (List.mem_reverse.mpr hx)

/-- A chunk that parses as a JSON object is not blank. -/
theorem isJsonObj_pyStrip_ne {s : String} (h : isJsonObj s = true) : pyStrip s ≠ "" := by
  intro he
  have hload := jsonLoads_all_ws s (pyStrip_empty_all_ws he)
  unfold isJsonObj at h
  rw [hload] at h
  simp at h

/-- C4: a source tool call whose stripped argument buffer looks like JSON
and splits into exactly two chunks, both valid JSON objects, is expanded
into exactly two derived calls with identifiers `{id}-0` and `{id}-1`,
each carrying only its own chunk as arguments; a buffer splitting into a
single chunk passes the original call through unchanged. -/
theorem expandToolCall_spec :
    (∀ (call : ToolCall) (c0 c1 : String),
      looksLikeJson (pyStripL call.args.data) = true →
      splitConcatenatedJson (pyStrip call.args) = [c0, c1] →
      isJsonObj c0 = true → isJsonObj c1 = true →
      expandToolCall call =
        [{ id := call.id ++ "-0", name := call.name, args := c0 },
         { id := call.id ++ "-1", name := call.name, args := c1 }]) ∧
    (∀ call : ToolCall, (splitConcatenatedJson (pyStrip call.args)).length = 1 →
      expandToolCall call = [call]) := by
  constructor
  · intro call c0 c1 hj hs h0 h1
    have hs' : splitConcatenatedJson (String.mk (pyStripL call.args.data)) = [c0, c1] := hs
    have hne0 := isJsonObj_pyStrip_ne h0
    have hne1 := isJsonObj_pyStrip_ne h1
    have t0 : toString (0 : Nat) = "0" := rfl
    have t1 : toString (1 : Nat) = "1" := rfl
    simp [expandToolCall, hj, hs', List.enum, hne0, hne1, t0, t1, String.append_assoc]
  · intro call hlen
    have hlen' : (splitConcatenatedJson (String.mk (pyStripL call.args.data))).length = 1 :=
      hlen
    cases hj : looksLikeJson (pyStripL call.args.data) with
    | false => simp [expandToolCall, hj]
    | true => simp [expandToolCall, hj, hlen']

/-- Witness for C4: the buffer `{"a":1}{"b":2}` splits into two object
chunks and is expanded; the buffer `{"a":1}` is passed through. -/
theorem expandToolCall_spec_witness :
    expandToolCall ⟨"c1", "f", "\x7b\"a\":1\x7d\x7b\"b\":2\x7d"⟩ =
      [{ id := "c1" ++ "-0", name := "f", args := "\x7b\"a\":1\x7d" },
       { id := "c1" ++ "-1", name := "f", args := "\x7b\"b\":2\x7d" }] ∧
    expandToolCall ⟨"c2", "g", "\x7b\"a\":1\x7d"⟩ = [⟨"c2", "g", "\x7b\"a\":1\x7d"⟩] :=
  ⟨expandToolCall_spec.1 ⟨"c1", "f", "\x7b\"a\":1\x7d\x7b\"b\":2\x7d"⟩
      "\x7b\"a\":1\x7d" "\x7b\"b\":2\x7d" rfl rfl rfl rfl,
   expandToolCall_spec.2 ⟨"c2", "g", "\x7b\"a\":1\x7d"⟩ rfl⟩

/-! ## C7 — per-server execution and error scoping -/

/-- C7, counterexample: the claim states that a remote-disconnect failure
aborts the server's remaining calls and converts every one of them into an
identical connection-error response.  In fact `httpx.RemoteProtocolError`
raised while executing an individual call is caught by the inner
`except Exception` handler: the first call gets its own per-call error
text, and the second call still executes and returns its success payload —
neither response carries the connection-error text. -/
theorem exec_server_tools_counterexample :
    exec_server_tools ConnectOutcome.ok
      (fun c => if c.id = "a" then CallOutcome.remoteDisconnect "gone"
                else CallOutcome.ok "fine")
      "srv" [⟨"a", "t1", ""⟩, ⟨"b", "t2", ""⟩]
      = [⟨"a", toolErrorText "t1" "gone"⟩, ⟨"b", "fine"⟩] ∧
    "fine" ≠ connectionErrorRemote "srv" "gone" ∧
    toolErrorText "t1" "gone" ≠ connectionErrorRemote "srv" "gone" :=
  ⟨rfl, by decide, by decide⟩

/-- C7, amended: after a successful connect, each of the server's routed
calls yields exactly one response, in order, determined by that call's own
outcome — success payload, or its own per-call error text for any
exception, a mid-call remote-disconnect included — so an exception in one
call never disturbs its siblings; a connection-level failure of
`server.connect()` converts every routed call of the server into one
identical connection-error response. -/
theorem exec_server_tools_spec :
    (∀ (conn : ConnectOutcome) (runCall : ToolCall → CallOutcome) (n : String)
       (calls : List ToolCall),
      (exec_server_tools conn runCall n calls).map (fun r => r.toolCallId)
        = calls.map (fun c => c.id)) ∧
    (∀ (runCall : ToolCall → CallOutcome) (n : String) (calls : List ToolCall),
      List.Forall₂ (fun (c : ToolCall) (r : ToolResponse) =>
          r.toolCallId = c.id ∧
          (∀ s, runCall c = .ok s → r.content = s) ∧
          (∀ m, runCall c = .err m → r.content = toolErrorText c.name m) ∧
          (∀ m, runCall c = .remoteDisconnect m → r.content = toolErrorText c.name m))
        calls (exec_server_tools ConnectOutcome.ok runCall n calls)) ∧
    (∀ (e : String) (runCall : ToolCall → CallOutcome) (n : String)
       (calls : List ToolCall) (r : ToolResponse),
      r ∈ exec_server_tools (ConnectOutcome.remoteDisconnect e) runCall n calls →
      r.content = connectionErrorRemote n e) ∧
    (∀ (e : String) (runCall : ToolCall → CallOutcome) (n : String)
       (calls : List ToolCall) (r : ToolResponse),
      r ∈ exec_server_tools (ConnectOutcome.err e) runCall n calls →
      r.content = connectionErrorGeneric n e) := by
  refine ⟨?_, ?_, ?_, ?_⟩
  · intro conn runCall n calls
    cases conn <;>
      · unfold exec_server_tools
        rw [List.map_map]
        apply List.map_congr_left
        intro c _
        first
        | rfl
        | (cases hc : runCall c <;> simp [hc])
  · intro runCall n calls
    induction calls with
    | nil => exact List.Forall₂.nil
    | cons c rest ih =>
      refine List.Forall₂.cons
        ⟨?_, fun x hx => by simp [hx], fun x hx => by simp [hx],
          fun x hx => by simp [hx]⟩ ih
      cases hc : runCall c <;> simp [hc]
  · intro e runCall n calls r hr
    unfold exec_server_tools at hr
    obtain ⟨c, _, rfl⟩ := List.mem_map.mp hr
    rfl
  · intro e runCall n calls r hr
    unfold exec_server_tools at hr
    obtain ⟨c, _, rfl⟩ := List.mem_map.mp hr
    rfl

/-- Witness for C7 (amended): one-call batches under a successful connect,
a remote-disconnect at connect, and a generic connect failure. -/
theorem exec_server_tools_spec_witness :
    (exec_server_tools ConnectOutcome.ok (fun _ => CallOutcome.ok "x") "srv"
        [⟨"a", "t", ""⟩]).map (fun r => r.toolCallId)
      = [(⟨"a", "t", ""⟩ : ToolCall)].map (fun c => c.id) ∧
    (⟨"a", connectionErrorRemote "srv" "gone"⟩ : ToolResponse).content
      = connectionErrorRemote "srv" "gone" ∧
    (⟨"a", connectionErrorGeneric "srv" "down"⟩ : ToolResponse).content
      = connectionErrorGeneric "srv" "down" := by
  refine ⟨?_, ?_, ?_⟩
  · exact exec_server_tools_spec.1 ConnectOutcome.ok (fun _ => CallOutcome.ok "x") "srv"
      [⟨"a", "t", ""⟩]
  · exact exec_server_tools_spec.2.2.1 "gone" (fun _ => CallOutcome.ok "x") "srv"
      [⟨"a", "t", ""⟩] ⟨"a", connectionErrorRemote "srv" "gone"⟩
      (by simp [exec_server_tools])
  · exact exec_server_tools_spec.2.2.2 "down" (fun _ => CallOutcome.ok "x") "srv"
      [⟨"a", "t", ""⟩] ⟨"a", connectionErrorGeneric "srv" "down"⟩
      (by simp [exec_server_tools])

/-! ## C1 — routing of tool calls to servers -/

/-- Lookup in a cons cell of the dispatch dictionary. -/
theorem dictLookup_cons (k : Server) (v : List ToolCall) (rest : ToolDict) (s' : Server) :
    dictLookup ((k, v) :: rest) s' = if k = s' then v else dictLookup rest s' := by
  by_cases h : k = s' <;> simp [dictLookup, List.find?, h]

/-- `dictAppend` appends to exactly the given server's dispatch list. -/
theorem dictLookup_dictAppend (d : ToolDict) (s : Server) (c : ToolCall) (s' : Server) :
    dictLookup (dictAppend d s c) s' =
      if s' = s then dictLookup d s' ++ [c] else dictLookup d s' := by
  induction d with
  | nil =>
    by_cases h : s' = s
    · subst h; simp [dictAppend, dictLookup_cons, dictLookup]
    · simp [dictAppend, dictLookup_cons, dictLookup, h, Ne.symm h]
  | cons e rest ih =>
    obtain ⟨k, v⟩ := e
    by_cases hk : k = s
    · subst hk
      simp only [dictAppend, eq_self_iff_true, if_true]
      rw [dictLookup_cons, dictLookup_cons]
      by_cases h : k = s'
      · subst h; simp
      · rw [if_neg (fun hh => h (Eq.symm hh)), if_neg h, if_neg h]
    · simp only [dictAppend, if_neg hk]
      rw [dictLookup_cons, dictLookup_cons]
      by_cases h : k = s'
      · subst h
        simp [hk]
      · simp only [if_neg h]
        exact ih

/-- Membership after `dictAppend`. -/
theorem mem_dictLookup_dictAppend (d : ToolDict) (s : Server) (c : ToolCall)
    (s' : Server) (c' : ToolCall) :
    c' ∈ dictLookup (dictAppend d s c) s' ↔
      c' ∈ dictLookup d s' ∨ (s' = s ∧ c' = c) := by
  rw [dictLookup_dictAppend]
  by_cases h : s' = s
  · subst h; simp
  · simp [h]

/-- Membership after the inner advertised-tool loop of the routing step. -/
theorem mem_routeFold (servers : List Server) (call : ToolCall) (sn : String) :
    ∀ (ts : List (Option String)) (d : ToolDict) (s' : Server) (c' : ToolCall),
      c' ∈ dictLookup (ts.foldl (fun d t =>
          if toolNameMatches call.name t then
            match findServer servers sn with
            | some s => dictAppend d s call
            | none => d
          else d) d) s' ↔
        c' ∈ dictLookup d s' ∨
          ((∃ t ∈ ts, toolNameMatches call.name t = true) ∧
            findServer servers sn = some s' ∧ c' = call) := by
  intro ts
  induction ts with
  | nil => intro d s' c'; simp
  | cons t ts ih =>
    intro d s' c'
    rw [List.foldl_cons]
    cases hm : toolNameMatches call.name t
    · simp only [hm, Bool.false_eq_true, if_false]
      rw [ih]
      simp [hm]
    · simp only [hm, if_true]
      rw [ih]
      cases hf : findServer servers sn
      · simp [hm]
      · rename_i s
        rw [mem_dictLookup_dictAppend]
        simp only [hm, Option.some.injEq]
        constructor
        · rintro ((hd | ⟨rfl, rfl⟩) | ⟨hts, rfl, rfl⟩)
          · exact Or.inl hd
          · exact Or.inr ⟨⟨t, List.mem_cons_self t ts, hm⟩, rfl, rfl⟩
          · exact Or.inr ⟨⟨t, List.mem_cons_self t ts, hm⟩, rfl, rfl⟩
        · rintro (hd | ⟨hts, rfl, rfl⟩)
          · exact Or.inl (Or.inl hd)
          · exact Or.inl (Or.inr ⟨rfl, rfl⟩)

/-- Membership after one `(server_name, server_tools)` routing step. -/
theorem mem_routeCallStep (servers : List Server) (call : ToolCall) (d : ToolDict)
    (entry : String × List (Option String)) (s' : Server) (c' : ToolCall) :
    c' ∈ dictLookup (routeCallStep servers call d entry) s' ↔
      c' ∈ dictLookup d s' ∨
        ((∃ t ∈ entry.2, toolNameMatches call.name t = true) ∧
          findServer servers entry.1 = some s' ∧ c' = call) := by
  unfold routeCallStep
  exact mem_routeFold servers call entry.1 entry.2 d s' c'

/-- Membership after routing one call through all advertised entries. -/
theorem mem_gatherEntries (servers : List Server) (call : ToolCall) :
    ∀ (ents : List (String × List (Option String))) (d : ToolDict) (s' : Server)
      (c' : ToolCall),
      c' ∈ dictLookup (ents.foldl (routeCallStep servers call) d) s' ↔
        c' ∈ dictLookup d s' ∨
          ((∃ entry ∈ ents, (∃ t ∈ entry.2, toolNameMatches call.name t = true) ∧
            findServer servers entry.1 = some s') ∧ c' = call) := by
  intro ents
  induction ents with
  | nil => intro d s' c'; simp
  | cons entry ents ih =>
    intro d s' c'
    rw [List.foldl_cons, ih, mem_routeCallStep]
    constructor
    · rintro ((hd | ⟨ht, hf, rfl⟩) | ⟨⟨e, he, hme, hfe⟩, rfl⟩)
      · exact Or.inl hd
      · exact Or.inr ⟨⟨entry, List.mem_cons_self entry ents, ht, hf⟩, rfl⟩
      · exact Or.inr ⟨⟨e, List.mem_cons_of_mem entry he, hme, hfe⟩, rfl⟩
    · rintro (hd | ⟨⟨e, he, hme, hfe⟩, rfl⟩)
      · exact Or.inl (Or.inl hd)
      · rcases List.mem_cons.mp he with rfl | he'
        · exact Or.inl (Or.inr ⟨hme, hfe, rfl⟩)
        · exact Or.inr ⟨⟨e, he', hme, hfe⟩, rfl⟩

/-- Membership in the dispatch dictionary built by the full routing loops. -/
theorem mem_gatherCalls (tools : List (String × List (Option String)))
    (servers : List Server) :
    ∀ (calls : List ToolCall) (d : ToolDict) (s' : Server) (c' : ToolCall),
      c' ∈ dictLookup (calls.foldl
          (fun d call => tools.foldl (routeCallStep servers call) d) d) s' ↔
        c' ∈ dictLookup d s' ∨
          (c' ∈ calls ∧ ∃ entry ∈ tools,
            (∃ t ∈ entry.2, toolNameMatches c'.name t = true) ∧
            findServer servers entry.1 = some s') := by
  intro calls
  induction calls with
  | nil => intro d s' c'; simp
  | cons c cs ih =>
    intro d s' c'
    rw [List.foldl_cons, ih, mem_gatherEntries]
    constructor
    · rintro ((hd | ⟨hR, rfl⟩) | ⟨hc, hR⟩)
      · exact Or.inl hd
      · exact Or.inr ⟨List.mem_cons_self _ _, hR⟩
      · exact Or.inr ⟨List.mem_cons_of_mem _ hc, hR⟩
    · rintro (hd | ⟨hmem, hR⟩)
      · exact Or.inl (Or.inl hd)
      · rcases List.mem_cons.mp hmem with rfl | hc
        · exact Or.inl (Or.inr ⟨hR, rfl⟩)
        · exact Or.inr ⟨hc, hR⟩

/-- A key present after `dictAppend` was present before or is the appended
server. -/
theorem mem_keys_dictAppend (d : ToolDict) (s : Server) (c : ToolCall) (x : Server) :
    x ∈ (dictAppend d s c).map Prod.fst ↔ x ∈ d.map Prod.fst ∨ x = s := by
  induction d with
  | nil => simp [dictAppend]
  | cons e rest ih =>
    obtain ⟨k, v⟩ := e
    by_cases hk : k = s
    · subst hk
      simp only [dictAppend, eq_self_iff_true, if_true, List.map_cons, List.mem_cons]
      constructor
      · rintro (rfl | h)
        · exact Or.inl (Or.inl rfl)
        · exact Or.inl (Or.inr h)
      · rintro ((rfl | h) | rfl)
        · exact Or.inl rfl
        · exact Or.inr h
        · exact Or.inl rfl
    · simp only [dictAppend, if_neg hk, List.map_cons, List.mem_cons, ih]
      tauto

/-- `dictAppend` preserves key uniqueness of the dispatch dictionary. -/
theorem nodup_keys_dictAppend (d : ToolDict) (s : Server) (c : ToolCall)
    (h : (d.map Prod.fst).Nodup) : ((dictAppend d s c).map Prod.fst).Nodup := by
  induction d with
  | nil => simp [dictAppend]
  | cons e rest ih =>
    obtain ⟨k, v⟩ := e
    simp only [List.map_cons, List.nodup_cons] at h
    by_cases hk : k = s
    · subst hk
      simpa [dictAppend, List.nodup_cons] using h
    · simp only [dictAppend, if_neg hk, List.map_cons, List.nodup_cons]
      refine ⟨?_, ih h.2⟩
      intro hmem
      rcases (mem_keys_dictAppend rest s c k).mp hmem with hin | rfl
      · exact h.1 hin
      · exact hk rfl

/-- In a key-unique dispatch dictionary, lookup of an entry's key returns
its list. -/
theorem dictLookup_eq_of_mem :
    ∀ {d : ToolDict}, ((d.map Prod.fst).Nodup) →
      ∀ {s : Server} {cs : List ToolCall}, (s, cs) ∈ d → dictLookup d s = cs := by
  intro d
  induction d with
  | nil => intro _ s cs hm; simp at hm
  | cons e rest ih =>
    intro h s cs hm
    obtain ⟨k, v⟩ := e
    simp only [List.map_cons, List.nodup_cons] at h
    rcases List.mem_cons.mp hm with heq | hmem
    · injection heq with h1 h2
      subst h1; subst h2
      rw [dictLookup_cons, if_pos rfl]
    · have hk : k ≠ s := by
        intro hks
        subst hks
        exact h.1 (List.mem_map.mpr ⟨(k, cs), hmem, rfl⟩)
      rw [dictLookup_cons, if_neg hk]
      exact ih h.2 hmem

/-- The inner routing loop preserves key uniqueness. -/
theorem nodup_keys_routeFold (servers : List Server) (call : ToolCall) (sn : String) :
    ∀ (ts : List (Option String)) (d : ToolDict), ((d.map Prod.fst).Nodup) →
      (((ts.foldl (fun d t =>
          if toolNameMatches call.name t then
            match findServer servers sn with
            | some s => dictAppend d s call
            | none => d
          else d) d)).map Prod.fst).Nodup := by
  intro ts
  induction ts with
  | nil => intro d h; exact h
  | cons t ts ih =>
    intro d h
    rw [List.foldl_cons]
    apply ih
    cases hm : toolNameMatches call.name t
    · simpa [hm] using h
    · simp only [hm, if_true]
      cases hf : findServer servers sn
      · exact h
      · exact nodup_keys_dictAppend _ _ _ h

/-- The routing loops preserve key uniqueness. -/
theorem nodup_keys_gatherEntries (servers : List Server) (call : ToolCall) :
    ∀ (ents : List (String × List (Option String))) (d : ToolDict),
      ((d.map Prod.fst).Nodup) →
      (((ents.foldl (routeCallStep servers call) d)).map Prod.fst).Nodup := by
  intro ents
  induction ents with
  | nil => intro d h; exact h
  | cons entry ents ih =>
    intro d h
    rw [List.foldl_cons]
    apply ih
    unfold routeCallStep
    exact nodup_keys_routeFold servers call entry.1 entry.2 d h

/-- The full routing fold preserves key uniqueness. -/
theorem nodup_keys_gatherCalls (tools : List (String × List (Option String)))
    (servers : List Server) :
    ∀ (calls : List ToolCall) (d : ToolDict), ((d.map Prod.fst).Nodup) →
      (((calls.foldl (fun d call => tools.foldl (routeCallStep servers call) d) d)).map
        Prod.fst).Nodup := by
  intro calls
  induction calls with
  | nil => intro d h; exact h
  | cons c cs ih =>
    intro d h
    rw [List.foldl_cons]
    exact ih _ (nodup_keys_gatherEntries servers c tools d h)

/-- Every response produced by one server's execution carries the id of one
of that server's routed calls. -/
theorem toolCallId_of_mem_exec {conn : ConnectOutcome} {runCall : ToolCall → CallOutcome}
    {n : String} {calls : List ToolCall} {r : ToolResponse}
    (h : r ∈ exec_server_tools conn runCall n calls) : ∃ c ∈ calls, r.toolCallId = c.id := by
  cases conn
  · unfold exec_server_tools at h
    obtain ⟨c, hc, rfl⟩ := List.mem_map.mp h
    refine ⟨c, hc, ?_⟩
    cases runCall c <;> rfl
  · unfold exec_server_tools at h
    obtain ⟨c, hc, rfl⟩ := List.mem_map.mp h
    exact ⟨c, hc, rfl⟩
  · unfold exec_server_tools at h
    obtain ⟨c, hc, rfl⟩ := List.mem_map.mp h
    exact ⟨c, hc, rfl⟩

/-- C1, amended: with at least one advertised tool list, routing returns a
dispatch dictionary in which a call appears in the list of **every**
server that resolves from an advertising entry with a case-insensitive
name match — not only the first such server; in particular a call whose
name matches no advertised tool of any server is in no dispatch list, and
every response later produced from the dictionary carries the id of some
dispatched — hence matched — call, so an unmatched call also gets no
response message. -/
theorem gather_server_tool_calls_spec (tools : List (String × List (Option String)))
    (servers : List Server) (calls : List ToolCall) (h : tools ≠ []) :
    ∃ d, gather_server_tool_calls tools servers calls = some d ∧
      (∀ (s : Server) (c : ToolCall), c ∈ dictLookup d s ↔
        (c ∈ calls ∧ ∃ entry ∈ tools,
          (∃ t ∈ entry.2, toolNameMatches c.name t = true) ∧
          findServer servers entry.1 = some s)) ∧
      (∀ (connect : Server → ConnectOutcome) (runCall : Server → ToolCall → CallOutcome)
         (r : ToolResponse), r ∈ execute_tool_calls connect runCall d →
        ∃ (s : Server) (c : ToolCall), c ∈ dictLookup d s ∧ r.toolCallId = c.id ∧
          c ∈ calls ∧ ∃ entry ∈ tools,
            (∃ t ∈ entry.2, toolNameMatches c.name t = true) ∧
            findServer servers entry.1 = some s) := by
  have hne : tools.isEmpty = false := by
    cases tools
    · exact absurd rfl h
    · rfl
  refine ⟨calls.foldl (fun d call => tools.foldl (routeCallStep servers call) d) [],
    ?_, ?_, ?_⟩
  · simp [gather_server_tool_calls, hne]
  · intro s c
    have hmem := mem_gatherCalls tools servers calls [] s c
    simpa [dictLookup] using hmem
  · intro connect runCall r hr
    unfold execute_tool_calls at hr
    obtain ⟨e, he, hre⟩ := List.mem_flatMap.mp hr
    obtain ⟨s, cs⟩ := e
    obtain ⟨c, hc, hid⟩ := toolCallId_of_mem_exec hre
    have hnodup := nodup_keys_gatherCalls tools servers calls [] (by simp)
    have hlk := dictLookup_eq_of_mem hnodup he
    have hmem : c ∈ dictLookup
        (calls.foldl (fun d call => tools.foldl (routeCallStep servers call) d) []) s := by
      rw [hlk]; exact hc
    have hchar := (mem_gatherCalls tools servers calls [] s c).mp hmem
    simp only [dictLookup, List.find?, false_or] at hchar
    refine ⟨s, c, hmem, hid, ?_⟩
    simpa using hchar

/-- C1, counterexample: two servers both advertise a tool named `search`.
The routing loop has no break after a match, so the single call named
`Search` is appended to **both** servers' dispatch lists, not only the
first advertiser's — refuting "the call is placed in exactly one server's
dispatch list (the first advertiser's)". -/
theorem gather_first_server_counterexample :
    gather_server_tool_calls [("alpha", [some "search"]), ("beta", [some "search"])]
        [⟨0, "alpha"⟩, ⟨1, "beta"⟩] [⟨"id1", "Search", ""⟩]
      = some [(⟨0, "alpha"⟩, [⟨"id1", "Search", ""⟩]),
              (⟨1, "beta"⟩, [⟨"id1", "Search", ""⟩])] ∧
    (⟨"id1", "Search", ""⟩ : ToolCall) ∈
      dictLookup [(⟨0, "alpha"⟩, [⟨"id1", "Search", ""⟩]),
                  (⟨1, "beta"⟩, [⟨"id1", "Search", ""⟩])] ⟨0, "alpha"⟩ ∧
    (⟨"id1", "Search", ""⟩ : ToolCall) ∈
      dictLookup [(⟨0, "alpha"⟩, [⟨"id1", "Search", ""⟩]),
                  (⟨1, "beta"⟩, [⟨"id1", "Search", ""⟩])] ⟨1, "beta"⟩ ∧
    (⟨0, "alpha"⟩ : Server) ≠ ⟨1, "beta"⟩ :=
  ⟨by decide, by decide, by decide, by decide⟩

/-- Witness for C1 (amended) at a concrete configuration. -/
theorem gather_server_tool_calls_spec_witness :
    ∃ d, gather_server_tool_calls [("alpha", [some "search"])] [⟨0, "alpha"⟩]
      [⟨"id1", "Search", ""⟩] = some d := by
  obtain ⟨d, hd, -, -⟩ := gather_server_tool_calls_spec [("alpha", [some "search"])]
    [⟨0, "alpha"⟩] [⟨"id1", "Search", ""⟩] (by decide)
  exact ⟨d, hd⟩

/-! ## C8 — the prepare-to-edit batch contract -/

/-- `check_for_dirty_commit` never performs a commit. -/
theorem check_for_dirty_commit_commits (env : EditorEnv) (st : EditorState) (p : String) :
    (check_for_dirty_commit env st p).commits = st.commits := by
  unfold check_for_dirty_commit
  split_ifs <;> rfl

/-- `allowed_to_edit` never performs a commit. -/
theorem allowed_to_edit_commits (env : EditorEnv) (st : EditorState) (p : String) :
    ((allowed_to_edit env st p).2).commits = st.commits := by
  unfold allowed_to_edit
  split_ifs <;>
    simp [check_for_dirty_commit_commits, fmAddFname, apply_ite EditorState.commits] <;>
    split_ifs <;>
    simp [check_for_dirty_commit_commits, fmAddFname, apply_ite EditorState.commits]

/-- A memoized decision is stable under extending the dictionary. -/
theorem lookupSeen_append_of_some {seen : List (String × Bool)} {p : String} {b : Bool}
    (h : lookupSeen seen p = some b) (Δ : List (String × Bool)) :
    lookupSeen (seen ++ Δ) p = some b := by
  unfold lookupSeen at h ⊢
  rw [List.find?_append]
  cases hf : List.find? (fun e => decide (e.1 = p)) seen
  · rw [hf] at h; simp at h
  · rw [hf] at h
    simp only [Option.map_some'] at h
    simp [Option.or, h]

/-- A fresh decision inserted after a failed lookup is what any later
extension reads back. -/
theorem lookupSeen_append_fresh {seen : List (String × Bool)} {p : String}
    (h : lookupSeen seen p = none) (b : Bool) (Δ : List (String × Bool)) :
    lookupSeen (seen ++ (p, b) :: Δ) p = some b := by
  unfold lookupSeen at h ⊢
  rw [List.find?_append]
  cases hf : List.find? (fun e => decide (e.1 = p)) seen
  · simp [Option.or, List.find?]
  · rw [hf] at h; simp at h

/-- A failed lookup means the key is absent. -/
theorem not_mem_keys_of_lookupSeen_none {seen : List (String × Bool)} {p : String}
    (h : lookupSeen seen p = none) : p ∉ seen.map Prod.fst := by
  intro hmem
  obtain ⟨e, he, rfl⟩ := List.mem_map.mp hmem
  unfold lookupSeen at h
  rw [Option.map_eq_none'] at h
  rw [List.find?_eq_none] at h
  exact absurd (by simp : (fun x => decide (x.1 = e.1)) e = true) (by simpa using h e he)

/-- The memoization dictionary only grows during the batch loop. -/
theorem prepare_loop_seen_ext (env : EditorEnv) :
    ∀ (edits : List Edit) (st : EditorState) (seen : List (String × Bool))
      (res : List Edit) (log : List String),
      ∃ Δ, (prepare_loop env edits st seen res log).2.1 = seen ++ Δ := by
  intro edits
  induction edits with
  | nil => intro st seen res log; exact ⟨[], by simp [prepare_loop]⟩
  | cons e rest ih =>
    intro st seen res log
    cases hp : e.path with
    | none =>
      simp only [prepare_loop, hp]
      exact ih st seen (res ++ [e]) log
    | some p =>
      cases hl : lookupSeen seen p with
      | some b =>
        simp only [prepare_loop, hp, hl]
        exact ih st seen _ log
      | none =>
        simp only [prepare_loop, hp, hl]
        obtain ⟨Δ, hΔ⟩ := ih (allowed_to_edit env st p).2 (seen ++ [(p, (allowed_to_edit env st p).1)]) _ (log ++ [p])
        exact ⟨[(p, (allowed_to_edit env st p).1)] ++ Δ, by rw [hΔ, List.append_assoc]⟩

/-- The invocation log tracks exactly the memoization keys. -/
theorem prepare_loop_keys_eq_log (env : EditorEnv) :
    ∀ (edits : List Edit) (st : EditorState) (seen : List (String × Bool))
      (res : List Edit) (log : List String),
      seen.map Prod.fst = log →
      (prepare_loop env edits st seen res log).2.1.map Prod.fst =
        (prepare_loop env edits st seen res log).2.2.2 := by
  intro edits
  induction edits with
  | nil => intro st seen res log h; simpa [prepare_loop] using h
  | cons e rest ih =>
    intro st seen res log h
    cases hp : e.path with
    | none =>
      simp only [prepare_loop, hp]
      exact ih st seen (res ++ [e]) log h
    | some p =>
      cases hl : lookupSeen seen p with
      | some b =>
        simp only [prepare_loop, hp, hl]
        exact ih st seen _ log h
      | none =>
        simp only [prepare_loop, hp, hl]
        exact ih _ _ _ _ (by simp [h])

/-- The loop preserves uniqueness of the memoization keys. -/
theorem prepare_loop_keys_nodup (env : EditorEnv) :
    ∀ (edits : List Edit) (st : EditorState) (seen : List (String × Bool))
      (res : List Edit) (log : List String),
      (seen.map Prod.fst).Nodup →
      ((prepare_loop env edits st seen res log).2.1.map Prod.fst).Nodup := by
  intro edits
  induction edits with
  | nil => intro st seen res log h; simpa [prepare_loop] using h
  | cons e rest ih =>
    intro st seen res log h
    cases hp : e.path with
    | none =>
      simp only [prepare_loop, hp]
      exact ih st seen (res ++ [e]) log h
    | some p =>
      cases hl : lookupSeen seen p with
      | some b =>
        simp only [prepare_loop, hp, hl]
        exact ih st seen _ log h
      | none =>
        simp only [prepare_loop, hp, hl]
        refine ih _ _ _ _ ?_
        rw [List.map_append]
        rw [List.nodup_append]
        refine ⟨h, by simp, ?_⟩
        intro x hx hx2
        simp at hx2
        subst hx2
        exact not_mem_keys_of_lookupSeen_none hl hx

/-- The loop never commits. -/
theorem prepare_loop_commits (env : EditorEnv) :
    ∀ (edits : List Edit) (st : EditorState) (seen : List (String × Bool))
      (res : List Edit) (log : List String),
      (prepare_loop env edits st seen res log).1.commits = st.commits := by
  intro edits
  induction edits with
  | nil => intro st seen res log; simp [prepare_loop]
  | cons e rest ih =>
    intro st seen res log
    cases hp : e.path with
    | none =>
      simp only [prepare_loop, hp]
      exact ih st seen (res ++ [e]) log
    | some p =>
      cases hl : lookupSeen seen p with
      | some b =>
        simp only [prepare_loop, hp, hl]
        exact ih st seen _ log
      | none =>
        simp only [prepare_loop, hp, hl]
        rw [ih]
        exact allowed_to_edit_commits env st p

/-- The returned edits are exactly those kept by the final memoized
decisions. -/
theorem prepare_loop_res (env : EditorEnv) :
    ∀ (edits : List Edit) (st : EditorState) (seen : List (String × Bool))
      (res : List Edit) (log : List String),
      (prepare_loop env edits st seen res log).2.2.1 =
        res ++ edits.filter (keepPred (prepare_loop env edits st seen res log).2.1) := by
  intro edits
  induction edits with
  | nil => intro st seen res log; simp [prepare_loop]
  | cons e rest ih =>
    intro st seen res log
    cases hp : e.path with
    | none =>
      simp only [prepare_loop, hp]
      rw [ih st seen (res ++ [e]) log]
      have hk : keepPred (prepare_loop env rest st seen (res ++ [e]) log).2.1 e = true := by
        simp only [keepPred, hp]
      rw [List.filter_cons, hk]
      simp
    | some p =>
      cases hl : lookupSeen seen p with
      | some b =>
        simp only [prepare_loop, hp, hl]
        rw [ih st seen (if b then res ++ [e] else res) log]
        obtain ⟨Δ, hΔ⟩ := prepare_loop_seen_ext env rest st seen
          (if b then res ++ [e] else res) log
        have hk : keepPred (prepare_loop env rest st seen
            (if b then res ++ [e] else res) log).2.1 e = b := by
          simp only [keepPred, hp, hΔ, lookupSeen_append_of_some hl Δ, Option.getD_some]
        rw [List.filter_cons, hk]
        cases b <;> simp
      | none =>
        simp only [prepare_loop, hp, hl]
        rw [ih]
        obtain ⟨Δ, hΔ⟩ := prepare_loop_seen_ext env rest (allowed_to_edit env st p).2
          (seen ++ [(p, (allowed_to_edit env st p).1)])
          (if (allowed_to_edit env st p).1 then res ++ [e] else res) (log ++ [p])
        have hk : keepPred (prepare_loop env rest (allowed_to_edit env st p).2
            (seen ++ [(p, (allowed_to_edit env st p).1)])
            (if (allowed_to_edit env st p).1 then res ++ [e] else res)
            (log ++ [p])).2.1 e = (allowed_to_edit env st p).1 := by
          simp only [keepPred, hp, hΔ, List.append_assoc, List.singleton_append,
            lookupSeen_append_fresh hl, Option.getD_some]
        rw [List.filter_cons, hk]
        cases hb : (allowed_to_edit env st p).1 <;> simp

/-- C8: over any batch, `prepare_to_edit` invokes the per-path authorization
at most once per distinct path (the invocation log has no duplicates),
returns exactly the edits that are pathless or whose path's memoized
decision was authorized, performs at most one commit — covering precisely
the flagged pre-edit-commit set, when dirty commits are on, a repository
exists and the set is non-empty — and always hands back an empty
pending-commit set. -/
theorem prepare_to_edit_spec :
    ∀ (env : EditorEnv) (st : EditorState) (edits : List Edit),
      (prepare_to_edit env st edits).log.Nodup ∧
      (prepare_to_edit env st edits).st.needCommit = [] ∧
      (prepare_to_edit env st edits).res =
        edits.filter (keepPred (prepare_to_edit env st edits).seen) ∧
      (prepare_to_edit env st edits).st.commits = st.commits ++
        (if env.dirtyCommits = true ∧ env.repoPresent = true ∧
            (prepare_to_edit env st edits).flagged ≠ [] then
          [(prepare_to_edit env st edits).flagged] else []) := by
  intro env st edits
  refine ⟨?_, rfl, ?_, ?_⟩
  · have hkeys := prepare_loop_keys_eq_log env edits { st with needCommit := [] } [] [] [] rfl
    have hnd := prepare_loop_keys_nodup env edits { st with needCommit := [] } [] [] []
      (by simp)
    show (prepare_loop env edits { st with needCommit := [] } [] [] []).2.2.2.Nodup
    rw [← hkeys]
    exact hnd
  · show (prepare_loop env edits { st with needCommit := [] } [] [] []).2.2.1 =
      edits.filter (keepPred (prepare_loop env edits { st with needCommit := [] } [] [] []).2.1)
    simpa using prepare_loop_res env edits { st with needCommit := [] } [] [] []
  · show (dirty_commit env (prepare_loop env edits { st with needCommit := [] } [] [] []).1).commits
      = st.commits ++ _
    have hc := prepare_loop_commits env edits { st with needCommit := [] } [] [] []
    unfold dirty_commit
    by_cases h1 :
        (prepare_loop env edits { st with needCommit := [] } [] [] []).1.needCommit = []
    · simp only [h1, if_true]
      simp [prepare_to_edit, h1, hc]
    · cases hd : env.dirtyCommits
      · simp [prepare_to_edit, dirty_commit, h1, hd, hc]
      · cases hr : env.repoPresent
        · simp [prepare_to_edit, dirty_commit, h1, hd, hr, hc]
        · simp [prepare_to_edit, dirty_commit, h1, hd, hr, hc]
